import Mathlib

/-!
Shallow embedding of `generate.py`, the static-site generator of the
gtoc-forum repository, together with proofs about its ordering and
aggregation pipeline.

Python strings are modelled as `List Char` (sequences of code points);
Python's whitespace set and `str.isdigit` are modelled over their ASCII
behaviour (`Char.isWhitespace`, `Char.isDigit`), which is the relevant
fragment for directory names and Markdown syntax markers.
-/

/-- Sequence-of-code-points model of a Python `str`. -/
abbrev PyStr := List Char

/-- Model of Python `str.strip()`: remove leading and trailing whitespace. -/
def pyStrip (s : PyStr) : PyStr :=
  ((s.dropWhile Char.isWhitespace).reverse.dropWhile Char.isWhitespace).reverse

/-- Model of Python `str.isdigit()`: nonempty and every character a decimal
digit. -/
def pyIsDigit (s : PyStr) : Bool :=
  !s.isEmpty && s.all Char.isDigit

/-- Model of Python string comparison `a <= b`: lexicographic by code point,
with a proper front segment comparing as smaller. -/
def pyLe : PyStr → PyStr → Bool
  | [], _ => true
  | _ :: _, [] => false
  | a :: as, b :: bs =>
    if a < b then true
    else if a = b then pyLe as bs
    else false

/-- Test for `line_stripped.startswith("# ")` applied to an already
stripped line (source lines 52 and 102). -/
def isH1 (l : PyStr) : Bool :=
  match pyStrip l with
  | '#' :: ' ' :: _ => true
  | _ => false

/-- Model of `line_stripped.lstrip("# ").strip()` (source lines 53 and 103):
strip the line, drop every leading `#` or space character, strip again. -/
def mdTitle (l : PyStr) : PyStr :=
  pyStrip ((pyStrip l).dropWhile (fun c => c = '#' || c = ' '))

/-- Model of `list(dict.fromkeys(xs))` (source line 65): keep the first
occurrence of every element, preserving order.  `seen` is the set of keys
already emitted. -/
def dedupFirstAux (seen : List PyStr) : List PyStr → List PyStr
  | [] => []
  | x :: xs =>
    if x ∈ seen then dedupFirstAux seen xs
    else x :: dedupFirstAux (x :: seen) xs

/-- Order-preserving first-occurrence deduplication, as `dict.fromkeys`. -/
def dedupFirst (l : List PyStr) : List PyStr :=
  dedupFirstAux [] l

/-- Locate the first occurrence of the two-character sequence `](` in a
character list, returning the text before it and the text after it. -/
def findSplit : List Char → Option (List Char × List Char)
  | [] => none
  | ']' :: '(' :: rest => some ([], rest)
  | c :: rest => (findSplit rest).map (fun p => (c :: p.1, p.2))

/-- Model of `ORDER_LIST_PATTERN.match(line_stripped)` (source lines 11 and
58), returning `group(2)` on success.  The regex is
`^\s*-\s*\[(.*?)\]\((.*?)\)\s*$`.  Both groups are lazy, so the match (when
one exists) splits at the first occurrence of `](`, and the closing `)` of
group 2 is the last `)` of the line, followed only by whitespace; the
bracketed group 1 is discarded. -/
def matchOrderLine (s : PyStr) : Option PyStr :=
  match s.dropWhile Char.isWhitespace with
  | '-' :: rest =>
    match rest.dropWhile Char.isWhitespace with
    | '[' :: r =>
      match findSplit r with
      | some (_, bfull) =>
        match bfull.reverse.dropWhile Char.isWhitespace with
        | ')' :: brev => some brev.reverse
        | _ => none
      | none => none
    | _ => none
  | _ => none

/-- Fallback card title of `parse_md_file` (source line 97), the fixed
string `"未命名卡片"` ("unnamed card"). -/
def defaultCardTitle : PyStr := "未命名卡片".data

/-- Line-scanning loop of `parse_md_file` (source lines 99-106): carry the
title-found flag and the current title; every line other than the first
level-1 heading is accumulated, in order, as body content. -/
def parseMdLines : List PyStr → Bool → PyStr → PyStr × List PyStr
  | [], _, title => (title, [])
  | l :: ls, found, title =>
    if !found && isH1 l then
      parseMdLines ls true (mdTitle l)
    else
      let r := parseMdLines ls found title
      (r.1, l :: r.2)

/-- Model of `parse_md_file` (source lines 91-117): returns the extracted
title and the body lines, in original order.  The subsequent conversion of
the body to HTML is done by the external `markdown` library and is outside
the model. -/
def parse_md_file (lines : List PyStr) : PyStr × List PyStr :=
  parseMdLines lines false defaultCardTitle

/-- Per-line contribution to the declared order in `parse_year_index`
(source lines 58-62): the trimmed link target of a line matching the list
pattern, provided it is nonempty. -/
def lineTarget (l : PyStr) : Option PyStr :=
  match matchOrderLine (pyStrip l) with
  | some g2 =>
    let name := pyStrip g2
    if name.isEmpty then none else some name
  | none => none

/-- Line-scanning loop of `parse_year_index` (source lines 49-62): carry
the title-found flag and the current tab name; the first level-1 heading
line sets the tab name and is skipped, and every line matching the list
pattern with a nonempty trimmed target appends that target. -/
def parseYearLines : List PyStr → Bool → PyStr → PyStr × List PyStr
  | [], _, tab => (tab, [])
  | l :: ls, found, tab =>
    if !found && isH1 l then
      parseYearLines ls true (mdTitle l)
    else
      match lineTarget l with
      | some name =>
        let r := parseYearLines ls found tab
        (r.1, name :: r.2)
      | none => parseYearLines ls found tab

/-- Model of the successful-read body of `parse_year_index` (source lines
41-67): scan the lines, then deduplicate the declared order keeping first
occurrences. -/
def parse_year_index (yearName : PyStr) (lines : List PyStr) :
    PyStr × List PyStr :=
  let r := parseYearLines lines false yearName
  (r.1, dedupFirst r.2)

/-- Model of `parse_year_index` including its filesystem boundary (source
lines 24-71).  The `index.md` file is `none` when absent, `Except.error`
when opening or reading it raises, and `Except.ok` with its lines
otherwise.  Both the absent case (lines 37-39) and the caught-exception
case (lines 69-71) return the year name as tab name and an empty order. -/
def parse_year_index_outer (yearName : PyStr)
    (file : Option (Except PyStr (List PyStr))) : PyStr × List PyStr :=
  match file with
  | none => (yearName, [])
  | some (Except.error _) => (yearName, [])
  | some (Except.ok lines) => parse_year_index yearName lines

/-- Ordered insertion with respect to a Boolean comparison: place `x`
before the first element `y` with `le x y`. -/
def insertSorted (le : α → α → Bool) (x : α) : List α → List α
  | [] => [x]
  | y :: ys => if le x y then x :: y :: ys else y :: insertSorted le x ys

/-- Model of Python `sorted` with comparison `le`: stable insertion sort
(elements are inserted right to left, so an earlier element settles in
front of every equal later one, as Python's stable sort guarantees). -/
def sortBy (le : α → α → Bool) (l : List α) : List α :=
  l.foldr (insertSorted le) []

/-- Model of Python `list.remove(x)` in the context of source line 872:
delete the first element equal to `x`. -/
def removeFirst (x : PyStr) : List PyStr → List PyStr
  | [] => []
  | y :: ys => if y = x then ys else y :: removeFirst x ys

/-- Ordering loop of `main` (source lines 867-874): walk the declared
order; an identifier present in the working copy of the actual
subdirectories is appended to the output and removed from the working
copy, an absent one is skipped and recorded as a warning.  Returns the
declared part of the ordering, the leftover actual subdirectories, and
the warned identifiers in declared order. -/
def resolveLoop : List PyStr → List PyStr → List PyStr × List PyStr × List PyStr
  | [], actual => ([], actual, [])
  | sf :: rest, actual =>
    if sf ∈ actual then
      let r := resolveLoop rest (removeFirst sf actual)
      (sf :: r.1, r.2.1, r.2.2)
    else
      let r := resolveLoop rest actual
      (r.1, r.2.1, sf :: r.2.2)

/-- Model of the full ordering step of `main` (source lines 866-876):
declared part first, then the remaining actual subdirectories sorted
ascending (`sorted(all_subfolders)`).  The second component is the list
of warned (declared but nonexistent) identifiers. -/
def resolveOrder (declared actual : List PyStr) : List PyStr × List PyStr :=
  let r := resolveLoop declared actual
  (r.1 ++ sortBy pyLe r.2.1, r.2.2)

/-- Composition of the deduplication done by `parse_year_index` (source
line 65) with the ordering step of `main` (source lines 866-876): the
final section ordering of a year folder as a function of the raw declared
entries and the actual subdirectories. -/
def resolveSections (rawDeclared actual : List PyStr) :
    List PyStr × List PyStr :=
  resolveOrder (dedupFirst rawDeclared) actual

/-- Filesystem state of one subdirectory of a year folder: its name,
whether it is a directory, and the state of its `index.md` (absent,
unreadable, or its lines). -/
structure SubdirFS where
  name : PyStr
  isDir : Bool
  indexDoc : Option (Except PyStr (List PyStr))

/-- Filesystem state of one immediate child of the root directory. -/
structure YearFS where
  name : PyStr
  isDir : Bool
  indexDoc : Option (Except PyStr (List PyStr))
  subdirs : List SubdirFS

/-- Model of `get_year_folders` (source lines 14-22): keep the children
that are directories with an all-digit name, sorted descending by name
(`sorted(..., reverse=True, key=basename)`; the stable merge sort with
the flipped comparison matches Python's stable reverse sort). -/
def get_year_folders (entries : List YearFS) : List YearFS :=
  sortBy (fun a b => pyLe b.name a.name)
    (entries.filter (fun e => e.isDir && pyIsDigit e.name))

/-- Diagnostics emitted by the per-section loop of `main` (source lines
885 and 899), each naming the year and the subfolder. -/
inductive Warn where
  | missingIndex (year sf : PyStr)
  | parseFailed (year sf : PyStr)
deriving DecidableEq

/-- Card produced for one section when its `index.md` is read and parsed
successfully (source line 890): the section's `index.md` lines are absent
(`none`), raise on reading or parsing (`Except.error`), or parse to a
`(title, body)` card. -/
def okCard (fs : PyStr → Option (Except PyStr (List PyStr))) (sf : PyStr) :
    Option (PyStr × List PyStr) :=
  match fs sf with
  | some (Except.ok lines) => some (parse_md_file lines)
  | _ => none

/-- Warning produced for one section, if any (source lines 885 and 899). -/
def warnOf (year : PyStr) (fs : PyStr → Option (Except PyStr (List PyStr)))
    (sf : PyStr) : Option Warn :=
  match fs sf with
  | none => some (Warn.missingIndex year sf)
  | some (Except.error _) => some (Warn.parseFailed year sf)
  | some (Except.ok _) => none

/-- Per-section loop of `main` (source lines 878-899): for each ordered
subfolder, a missing `index.md` yields a warning and no card, a failing
read or parse is caught, warned about and skipped, and a successful parse
appends its card; every following subfolder is processed regardless. -/
def buildCards (year : PyStr) (fs : PyStr → Option (Except PyStr (List PyStr))) :
    List PyStr → List (PyStr × List PyStr) × List Warn
  | [] => ([], [])
  | sf :: rest =>
    let r := buildCards year fs rest
    match fs sf with
    | none => (r.1, Warn.missingIndex year sf :: r.2)
    | some (Except.error _) => (r.1, Warn.parseFailed year sf :: r.2)
    | some (Except.ok lines) => (parse_md_file lines :: r.1, r.2)

/-- Test for `item.name.startswith('.')` (source line 863). -/
def isHidden (s : PyStr) : Bool :=
  match s with
  | '.' :: _ => true
  | _ => false

/-- Lookup of a subfolder's `index.md` state by subfolder name. -/
def yearFsFun (y : YearFS) (sf : PyStr) : Option (Except PyStr (List PyStr)) :=
  match y.subdirs.find? (fun d => d.name = sf) with
  | some d => d.indexDoc
  | none => none

/-- Aggregated data of one year folder handed to the renderer. -/
structure YearData where
  yearName : PyStr
  tabName : PyStr
  cards : List (PyStr × List PyStr)

/-- Per-year body of the loop of `main` (source lines 847-899): parse the
year's `index.md`, list the non-hidden subdirectories, resolve the order,
and build the cards.  Returns the year's data together with its section
warnings and its unresolved-identifier warnings. -/
def processYear (y : YearFS) : YearData × List Warn × List PyStr :=
  let ti := parse_year_index_outer y.name y.indexDoc
  let actual := (y.subdirs.filter (fun d => d.isDir && !isHidden d.name)).map
    (fun d => d.name)
  let ro := resolveOrder ti.2 actual
  let bc := buildCards y.name (yearFsFun y) ro.1
  (⟨y.name, ti.1, bc.1⟩, bc.2, ro.2)

/-- State of the root input directory: absent, present but not a
directory, or a directory with the given children. -/
inductive RootState where
  | missing
  | notDir
  | dir (entries : List YearFS)

/-- Model of `main` (source lines 831-909), abstracting the template
interpolation of `generate_html` as an arbitrary `render` function.  The
result is the list of output-file writes performed by the run
(`Except.ok`), or `Except.error ()` when an uncaught exception aborts the
run: a missing root prints an error and returns without writing (lines
833-835); a root that exists but is not a directory makes `os.listdir`
raise `NotADirectoryError`, which nothing catches; an empty year list
prints a warning and returns without writing (lines 839-841); otherwise
the single fully-formed output write happens at the very end (lines
901-909).  Disk-level failures of the final write are outside the model. -/
def mainRun (root : RootState) (render : List YearData → PyStr) :
    Except Unit (List PyStr) :=
  match root with
  | RootState.missing => Except.ok []
  | RootState.notDir => Except.error ()
  | RootState.dir entries =>
    let years := get_year_folders entries
    if years.isEmpty then Except.ok []
    else Except.ok [render (years.map (fun y => (processYear y).1))]

/-! Helper lemmas about the string and list primitives. -/

theorem pyLe_refl (a : PyStr) : pyLe a a = true := by
  induction a with
  | nil => rfl
  | cons c cs ih => simp [pyLe, lt_irrefl, ih]

theorem pyLe_trans :
    ∀ a b c : PyStr, pyLe a b = true → pyLe b c = true → pyLe a c = true
  | [], _, _, _, _ => rfl
  | _ :: _, [], _, h, _ => by simp [pyLe] at h
  | _ :: _, _ :: _, [], _, h => by simp [pyLe] at h
  | a :: as, b :: bs, c :: cs, h1, h2 => by
    simp only [pyLe] at h1 h2 ⊢
    by_cases hab : a < b
    · by_cases hbc : b < c
      · simp [lt_trans hab hbc]
      · have hbc' : b = c := by
          by_cases h : b = c
          · exact h
          · simp [hbc, h] at h2
        subst hbc'
        simp [hab]
    · have hab' : a = b := by
        by_cases h : a = b
        · exact h
        · simp [hab, h] at h1
      subst hab'
      by_cases hbc : a < c
      · simp [hbc]
      · have hbc' : a = c := by
          by_cases h : a = c
          · exact h
          · simp [hbc, h] at h2
        subst hbc'
        have t1 : pyLe as bs = true := by simpa [lt_irrefl] using h1
        have t2 : pyLe bs cs = true := by simpa [lt_irrefl] using h2
        simp [lt_irrefl, pyLe_trans as bs cs t1 t2]

theorem pyLe_total : ∀ a b : PyStr, (pyLe a b || pyLe b a) = true
  | [], [] => rfl
  | [], _ :: _ => rfl
  | _ :: _, [] => rfl
  | a :: as, b :: bs => by
    simp only [pyLe]
    rcases lt_trichotomy a b with h | h | h
    · simp [h]
    · subst h
      simpa [lt_irrefl] using pyLe_total as bs
    · simp [h, lt_asymm h, h.ne']

theorem pyLe_iff_lex :
    ∀ a b : PyStr, pyLe a b = true ↔ (a = b ∨ List.Lex (· < ·) a b)
  | [], [] => by simp [pyLe]
  | [], _ :: _ => by
    simp only [pyLe, true_iff]
    exact Or.inr List.Lex.nil
  | _ :: _, [] => by
    constructor
    · intro h
      simp [pyLe] at h
    · rintro (h | h)
      · exact absurd h (by simp)
      · cases h
  | a :: as, b :: bs => by
    simp only [pyLe]
    rcases lt_trichotomy a b with h | h | h
    · rw [if_pos h]
      exact iff_of_true rfl (Or.inr (List.Lex.rel h))
    · subst h
      rw [if_neg (lt_irrefl a), if_pos rfl, pyLe_iff_lex as bs]
      constructor
      · rintro (rfl | h)
        · exact Or.inl rfl
        · exact Or.inr (List.Lex.cons h)
      · rintro (hc | hc)
        · injection hc with _ h2
          exact Or.inl h2
        · cases hc with
          | cons h => exact Or.inr h
          | rel h => exact absurd h (lt_irrefl a)
    · rw [if_neg (lt_asymm h), if_neg h.ne']
      constructor
      · intro hf
        exact Bool.noConfusion hf
      · rintro (hc | hc)
        · rw [List.cons.injEq] at hc
          exact absurd hc.1 h.ne'
        · cases hc with
          | cons _ => exact absurd rfl h.ne'
          | rel hr => exact absurd hr (lt_asymm h)

theorem mem_dedupFirstAux (x : PyStr) :
    ∀ (l : List PyStr) (seen : List PyStr),
      x ∈ dedupFirstAux seen l ↔ x ∈ l ∧ x ∉ seen
  | [], seen => by simp [dedupFirstAux]
  | y :: ys, seen => by
    by_cases h : y ∈ seen
    · rw [dedupFirstAux, if_pos h, mem_dedupFirstAux x ys seen]
      constructor
      · rintro ⟨h1, h2⟩
        exact ⟨List.mem_cons_of_mem _ h1, h2⟩
      · rintro ⟨h1, h2⟩
        rcases List.mem_cons.mp h1 with rfl | h1
        · exact absurd h h2
        · exact ⟨h1, h2⟩
    · rw [dedupFirstAux, if_neg h]
      rw [List.mem_cons, mem_dedupFirstAux x ys (y :: seen)]
      constructor
      · rintro (rfl | ⟨h1, h2⟩)
        · exact ⟨List.mem_cons_self _ _, h⟩
        · exact ⟨List.mem_cons_of_mem _ h1,
            fun hx => h2 (List.mem_cons_of_mem _ hx)⟩
      · rintro ⟨h1, h2⟩
        by_cases hxy : x = y
        · exact Or.inl hxy
        · rcases List.mem_cons.mp h1 with h3 | h3
          · exact absurd h3 hxy
          · refine Or.inr ⟨h3, fun hx => ?_⟩
            rcases List.mem_cons.mp hx with h4 | h4
            · exact hxy h4
            · exact h2 h4

theorem nodup_dedupFirstAux :
    ∀ (l : List PyStr) (seen : List PyStr), (dedupFirstAux seen l).Nodup
  | [], _ => List.nodup_nil
  | y :: ys, seen => by
    by_cases h : y ∈ seen
    · rw [dedupFirstAux, if_pos h]
      exact nodup_dedupFirstAux ys seen
    · rw [dedupFirstAux, if_neg h]
      refine List.nodup_cons.mpr ⟨fun hy => ?_, nodup_dedupFirstAux ys (y :: seen)⟩
      exact ((mem_dedupFirstAux y ys (y :: seen)).mp hy).2 (List.mem_cons_self _ _)

theorem mem_dedupFirst (x : PyStr) (l : List PyStr) :
    x ∈ dedupFirst l ↔ x ∈ l := by
  rw [dedupFirst, mem_dedupFirstAux]
  simp

theorem nodup_dedupFirst (l : List PyStr) : (dedupFirst l).Nodup :=
  nodup_dedupFirstAux l []

theorem removeFirst_eq_filter (x : PyStr) :
    ∀ l : List PyStr, l.Nodup →
      removeFirst x l = l.filter (fun z => !decide (z = x))
  | [], _ => rfl
  | y :: ys, h => by
    rcases List.nodup_cons.mp h with ⟨hy, hys⟩
    rw [List.filter_cons]
    by_cases hyx : y = x
    · subst hyx
      rw [removeFirst, if_pos rfl, if_neg (by simp)]
      refine (List.filter_eq_self.mpr fun z hz => ?_).symm
      have hz' : z ≠ y := by
        rintro rfl
        exact hy hz
      simp [hz']
    · rw [removeFirst, if_neg hyx, if_pos (by simp [hyx]),
        removeFirst_eq_filter x ys hys]

theorem nodup_removeFirst (x : PyStr) (l : List PyStr) (h : l.Nodup) :
    (removeFirst x l).Nodup := by
  rw [removeFirst_eq_filter x l h]
  exact h.filter _

theorem mem_removeFirst_of_ne {x z : PyStr} (l : List PyStr) (h : l.Nodup)
    (hne : z ≠ x) : z ∈ removeFirst x l ↔ z ∈ l := by
  rw [removeFirst_eq_filter x l h, List.mem_filter]
  simp [hne]

theorem insertSorted_perm (le : α → α → Bool) (x : α) :
    ∀ l : List α, (insertSorted le x l).Perm (x :: l)
  | [] => List.Perm.refl _
  | y :: ys => by
    rw [insertSorted]
    by_cases h : le x y = true
    · rw [if_pos h]
    · rw [if_neg h]
      exact ((insertSorted_perm le x ys).cons y).trans (List.Perm.swap x y ys)

theorem sortBy_perm (le : α → α → Bool) :
    ∀ l : List α, (sortBy le l).Perm l
  | [] => List.Perm.refl _
  | x :: xs => by
    rw [sortBy, List.foldr_cons]
    exact (insertSorted_perm le x _).trans ((sortBy_perm le xs).cons x)

theorem pairwise_insertSorted (le : α → α → Bool)
    (htrans : ∀ a b c, le a b = true → le b c = true → le a c = true)
    (htotal : ∀ a b, (le a b || le b a) = true) (x : α) :
    ∀ l : List α, l.Pairwise (fun a b => le a b = true) →
      (insertSorted le x l).Pairwise (fun a b => le a b = true)
  | [], _ => by simp [insertSorted]
  | y :: ys, hp => by
    rcases List.pairwise_cons.mp hp with ⟨hy, hys⟩
    rw [insertSorted]
    by_cases h : le x y = true
    · rw [if_pos h]
      refine List.pairwise_cons.mpr ⟨?_, hp⟩
      intro z hz
      rcases List.mem_cons.mp hz with rfl | hz
      · exact h
      · exact htrans x y z h (hy z hz)
    · rw [if_neg h]
      have hyx : le y x = true := by
        have ht := htotal x y
        rw [Bool.or_eq_true] at ht
        rcases ht with ht | ht
        · exact absurd ht h
        · exact ht
      refine List.pairwise_cons.mpr
        ⟨?_, pairwise_insertSorted le htrans htotal x ys hys⟩
      intro z hz
      have hz' : z ∈ x :: ys := (insertSorted_perm le x ys).mem_iff.mp hz
      rcases List.mem_cons.mp hz' with rfl | hz'
      · exact hyx
      · exact hy z hz'

theorem pairwise_sortBy (le : α → α → Bool)
    (htrans : ∀ a b c, le a b = true → le b c = true → le a c = true)
    (htotal : ∀ a b, (le a b || le b a) = true) :
    ∀ l : List α, (sortBy le l).Pairwise (fun a b => le a b = true)
  | [] => List.Pairwise.nil
  | x :: xs => by
    rw [sortBy, List.foldr_cons]
    exact pairwise_insertSorted le htrans htotal x _
      (pairwise_sortBy le htrans htotal xs)

/-- Characterization of the declared-order loop of `main` (source lines
867-874) on duplicate-free inputs: the declared part is the declared
order restricted to existing subdirectories, the leftovers are the actual
subdirectories not declared, and the warnings are the declared
identifiers that do not exist. -/
theorem resolveLoop_eq :
    ∀ (declared actual : List PyStr), declared.Nodup → actual.Nodup →
      resolveLoop declared actual =
        (declared.filter (fun z => decide (z ∈ actual)),
         actual.filter (fun z => decide (z ∉ declared)),
         declared.filter (fun z => decide (z ∉ actual)))
  | [], actual, _, _ => by
    simp [resolveLoop, List.filter_eq_self]
  | sf :: rest, actual, hd, ha => by
    rcases List.nodup_cons.mp hd with ⟨hsf, hrest⟩
    by_cases h : sf ∈ actual
    · have hra : (removeFirst sf actual).Nodup := nodup_removeFirst sf actual ha
      rw [resolveLoop, if_pos h, resolveLoop_eq rest (removeFirst sf actual) hrest hra]
      refine Prod.ext ?_ (Prod.ext ?_ ?_)
      · show sf :: rest.filter (fun z => decide (z ∈ removeFirst sf actual))
            = (sf :: rest).filter (fun z => decide (z ∈ actual))
        rw [List.filter_cons, if_pos (by simp [h])]
        refine congrArg _ (List.filter_congr fun z hz => ?_)
        have hz' : z ≠ sf := fun e => hsf (e ▸ hz)
        simp [mem_removeFirst_of_ne actual ha hz']
      · show (removeFirst sf actual).filter (fun z => decide (z ∉ rest))
            = actual.filter (fun z => decide (z ∉ sf :: rest))
        rw [removeFirst_eq_filter sf actual ha, List.filter_filter]
        refine List.filter_congr fun z _ => ?_
        by_cases h1 : z = sf <;> by_cases h2 : z ∈ rest <;>
          simp [h1, h2, List.mem_cons]
      · show rest.filter (fun z => decide (z ∉ removeFirst sf actual))
            = (sf :: rest).filter (fun z => decide (z ∉ actual))
        rw [List.filter_cons, if_neg (by simp [h])]
        refine List.filter_congr fun z hz => ?_
        have hz' : z ≠ sf := fun e => hsf (e ▸ hz)
        simp [mem_removeFirst_of_ne actual ha hz']
    · rw [resolveLoop, if_neg h, resolveLoop_eq rest actual hrest ha]
      refine Prod.ext ?_ (Prod.ext ?_ ?_)
      · show rest.filter (fun z => decide (z ∈ actual))
            = (sf :: rest).filter (fun z => decide (z ∈ actual))
        rw [List.filter_cons, if_neg (by simp [h])]
      · show actual.filter (fun z => decide (z ∉ rest))
            = actual.filter (fun z => decide (z ∉ sf :: rest))
        refine List.filter_congr fun z hz => ?_
        have hz' : z ≠ sf := fun e => h (e ▸ hz)
        simp [List.mem_cons, hz']
      · show sf :: rest.filter (fun z => decide (z ∉ actual))
            = (sf :: rest).filter (fun z => decide (z ∉ actual))
        rw [List.filter_cons, if_pos (by simp [h])]

/-- C1: for every set of actual subdirectories and every (deduplicated,
as `parse_year_index` guarantees) declared order, the resolved section
ordering is exactly the declared identifiers existing among the actual
subdirectories, in declared order, followed by the remaining actual
subdirectories in ascending lexicographic order; every declared
identifier not present among the actual subdirectories is absent from
the result and a warning naming it is emitted. -/
theorem resolved_order_spec (declared actual : List PyStr)
    (hd : declared.Nodup) (ha : actual.Nodup) :
    ∃ tail : List PyStr,
      (resolveOrder declared actual).1
          = declared.filter (fun z => decide (z ∈ actual)) ++ tail ∧
      tail.Perm (actual.filter (fun z => decide (z ∉ declared))) ∧
      tail.Pairwise (fun a b => a = b ∨ List.Lex (· < ·) a b) ∧
      (resolveOrder declared actual).2
          = declared.filter (fun z => decide (z ∉ actual)) ∧
      (∀ sf ∈ declared, sf ∉ actual →
        sf ∉ (resolveOrder declared actual).1 ∧
          sf ∈ (resolveOrder declared actual).2) := by
  have hres := resolveLoop_eq declared actual hd ha
  have h1 : (resolveOrder declared actual).1
      = declared.filter (fun z => decide (z ∈ actual))
        ++ sortBy pyLe (actual.filter (fun z => decide (z ∉ declared))) := by
    simp only [resolveOrder, hres]
  have h2 : (resolveOrder declared actual).2
      = declared.filter (fun z => decide (z ∉ actual)) := by
    simp only [resolveOrder, hres]
  refine ⟨sortBy pyLe (actual.filter (fun z => decide (z ∉ declared))),
    h1, sortBy_perm pyLe _, ?_, h2, ?_⟩
  · exact List.Pairwise.imp (fun h => (pyLe_iff_lex _ _).mp h)
      (pairwise_sortBy pyLe pyLe_trans pyLe_total _)
  · intro sf hsf hnot
    constructor
    · rw [h1]
      intro hmem
      rcases List.mem_append.mp hmem with hm | hm
      · exact hnot (of_decide_eq_true (List.mem_filter.mp hm).2)
      · have hm' : sf ∈ actual.filter (fun z => decide (z ∉ declared)) :=
          (sortBy_perm pyLe _).mem_iff.mp hm
        exact hnot (List.mem_filter.mp hm').1
    · rw [h2]
      exact List.mem_filter.mpr ⟨hsf, by simp [hnot]⟩

/-- Witness for `resolved_order_spec`: declared order `b, x, a` against
actual subdirectories `a, b, c`; the resolved order is `b, a, c` with a
warning for `x`. -/
theorem resolved_order_spec_witness :
    ([['b'], ['x'], ['a']] : List PyStr).Nodup ∧
    ([['a'], ['b'], ['c']] : List PyStr).Nodup ∧
    (∃ tail : List PyStr,
      (resolveOrder [['b'], ['x'], ['a']] [['a'], ['b'], ['c']]).1
          = ([['b'], ['x'], ['a']] : List PyStr).filter
              (fun z => decide (z ∈ ([['a'], ['b'], ['c']] : List PyStr)))
            ++ tail ∧
      tail.Perm (([['a'], ['b'], ['c']] : List PyStr).filter
              (fun z => decide (z ∉ ([['b'], ['x'], ['a']] : List PyStr)))) ∧
      tail.Pairwise (fun a b => a = b ∨ List.Lex (· < ·) a b) ∧
      (resolveOrder [['b'], ['x'], ['a']] [['a'], ['b'], ['c']]).2
          = ([['b'], ['x'], ['a']] : List PyStr).filter
              (fun z => decide (z ∉ ([['a'], ['b'], ['c']] : List PyStr))) ∧
      (∀ sf ∈ ([['b'], ['x'], ['a']] : List PyStr),
        sf ∉ ([['a'], ['b'], ['c']] : List PyStr) →
        sf ∉ (resolveOrder [['b'], ['x'], ['a']] [['a'], ['b'], ['c']]).1 ∧
          sf ∈ (resolveOrder [['b'], ['x'], ['a']] [['a'], ['b'], ['c']]).2)) :=
  ⟨by decide, by decide,
    resolved_order_spec [['b'], ['x'], ['a']] [['a'], ['b'], ['c']]
      (by decide) (by decide)⟩

/-- Counterexample to C2 as stated: with declared order `x, x` and no
actual subdirectories, the resolved order contains `x` zero times, not
exactly once. -/
theorem resolved_sections_dup_cex :
    ¬ ((resolveSections [['x'], ['x']] []).1.count ['x'] = 1) := by decide

theorem pystr_count_eq_one {x : PyStr} :
    ∀ l : List PyStr, l.Nodup → x ∈ l → l.count x = 1
  | [], _, h => absurd h (List.not_mem_nil x)
  | y :: ys, hnd, hmem => by
    rcases List.nodup_cons.mp hnd with ⟨hy, hys⟩
    rcases List.mem_cons.mp hmem with rfl | hmem
    · rw [List.count_cons, List.count_eq_zero.mpr hy]
      simp
    · have hne : (y == x) = false := by
        simp only [beq_eq_false_iff_ne, ne_eq]
        rintro rfl
        exact hy hmem
      rw [List.count_cons, pystr_count_eq_one ys hys hmem, hne]
      simp

theorem pystr_indexOf_append {x : PyStr} :
    ∀ (l₁ l₂ : List PyStr), x ∈ l₁ → (l₁ ++ l₂).indexOf x = l₁.indexOf x
  | [], _, h => absurd h (List.not_mem_nil x)
  | y :: ys, l₂, h => by
    rw [List.cons_append, List.indexOf_cons, List.indexOf_cons]
    by_cases hxy : (y == x) = true
    · rw [hxy]
      rfl
    · have hyx : (y == x) = false := Bool.eq_false_iff.mpr hxy
      have hmem : x ∈ ys := by
        rcases List.mem_cons.mp h with rfl | hm
        · exact absurd (by simp) hxy
        · exact hm
      rw [hyx]
      simp only [cond_false]
      rw [pystr_indexOf_append ys l₂ hmem]

/-- C2 (amended): the final section ordering contains each identifier at
most once; and for every declared order containing a repeated identifier
that exists among the actual subdirectories, the resolved order contains
it exactly once, at the position of its first declared occurrence (its
index equals its index among the first occurrences of declared
identifiers that exist). -/
theorem resolved_sections_dedup (raw actual : List PyStr) (ha : actual.Nodup) :
    (resolveSections raw actual).1.Nodup ∧
    (∀ x : PyStr, 2 ≤ raw.count x → x ∈ actual →
      (resolveSections raw actual).1.count x = 1 ∧
      (resolveSections raw actual).1.indexOf x
        = ((dedupFirst raw).filter (fun z => decide (z ∈ actual))).indexOf x) := by
  have hd : (dedupFirst raw).Nodup := nodup_dedupFirst raw
  have hres := resolveLoop_eq (dedupFirst raw) actual hd ha
  have h1 : (resolveSections raw actual).1
      = (dedupFirst raw).filter (fun z => decide (z ∈ actual))
        ++ sortBy pyLe (actual.filter (fun z => decide (z ∉ dedupFirst raw))) := by
    simp only [resolveSections, resolveOrder, hres]
  have hfront : ((dedupFirst raw).filter (fun z => decide (z ∈ actual))).Nodup :=
    hd.filter _
  have htail :
      (sortBy pyLe (actual.filter (fun z => decide (z ∉ dedupFirst raw)))).Nodup :=
    (sortBy_perm pyLe _).symm.nodup (ha.filter _)
  have hnodup : (resolveSections raw actual).1.Nodup := by
    rw [h1]
    refine List.nodup_append.mpr ⟨hfront, htail, ?_⟩
    intro z hz1 hz2
    have hz1' : z ∈ dedupFirst raw := (List.mem_filter.mp hz1).1
    have hz2' : z ∈ actual.filter (fun w => decide (w ∉ dedupFirst raw)) :=
      (sortBy_perm pyLe _).mem_iff.mp hz2
    exact (of_decide_eq_true (List.mem_filter.mp hz2').2) hz1'
  refine ⟨hnodup, ?_⟩
  intro x hcount hx
  have hxraw : x ∈ raw := by
    have hpos : 0 < raw.count x := lt_of_lt_of_le (by norm_num) hcount
    exact List.count_pos_iff.mp hpos
  have hxfront : x ∈ (dedupFirst raw).filter (fun z => decide (z ∈ actual)) :=
    List.mem_filter.mpr ⟨(mem_dedupFirst x raw).mpr hxraw, by simp [hx]⟩
  have hxres : x ∈ (resolveSections raw actual).1 := by
    rw [h1]
    exact List.mem_append.mpr (Or.inl hxfront)
  refine ⟨pystr_count_eq_one _ hnodup hxres, ?_⟩
  rw [h1]
  exact pystr_indexOf_append _ _ hxfront

/-- Witness for `resolved_sections_dedup`: raw declared order `x, a, x`
against actual subdirectories `a, x`. -/
theorem resolved_sections_dedup_witness :
    ([['a'], ['x']] : List PyStr).Nodup ∧
    (resolveSections [['x'], ['a'], ['x']] [['a'], ['x']]).1.Nodup ∧
    2 ≤ ([['x'], ['a'], ['x']] : List PyStr).count ['x'] ∧
    (['x'] : PyStr) ∈ ([['a'], ['x']] : List PyStr) ∧
    (resolveSections [['x'], ['a'], ['x']] [['a'], ['x']]).1.count ['x'] = 1 ∧
    (resolveSections [['x'], ['a'], ['x']] [['a'], ['x']]).1.indexOf ['x']
      = ((dedupFirst [['x'], ['a'], ['x']]).filter
          (fun z => decide (z ∈ ([['a'], ['x']] : List PyStr)))).indexOf ['x'] := by
  have h := resolved_sections_dedup [['x'], ['a'], ['x']] [['a'], ['x']] (by decide)
  exact ⟨by decide, h.1, by decide, by decide,
    (h.2 ['x'] (by decide) (by decide)).1, (h.2 ['x'] (by decide) (by decide)).2⟩

/-- C3: the top-level collector keeps exactly the children that are
directories with an all-digit name, sorted descending by string
comparison, and an entry with any non-digit character in its name never
appears in the result.  (`pyIsDigit` models Python `str.isdigit`, which
also requires at least one character; a real directory name is never
empty, so this refinement is invisible on actual filesystems.) -/
theorem get_year_folders_spec (entries : List YearFS) :
    ((get_year_folders entries).map (fun e => e.name)).Perm
        ((entries.filter (fun e => e.isDir && pyIsDigit e.name)).map
          (fun e => e.name)) ∧
    ((get_year_folders entries).map (fun e => e.name)).Pairwise
        (fun a b => b = a ∨ List.Lex (· < ·) b a) ∧
    (∀ e ∈ get_year_folders entries, e.isDir = true ∧ pyIsDigit e.name = true) ∧
    (∀ e ∈ entries, pyIsDigit e.name = false →
      e.name ∉ (get_year_folders entries).map (fun x => x.name)) := by
  have hperm : (get_year_folders entries).Perm
      (entries.filter (fun e => e.isDir && pyIsDigit e.name)) :=
    sortBy_perm _ _
  have hkept : ∀ e ∈ get_year_folders entries,
      e.isDir = true ∧ pyIsDigit e.name = true := by
    intro e he
    have he' := hperm.mem_iff.mp he
    have h2 := (List.mem_filter.mp he').2
    rw [Bool.and_eq_true] at h2
    exact h2
  refine ⟨hperm.map _, ?_, hkept, ?_⟩
  · rw [List.pairwise_map]
    have hp := pairwise_sortBy (fun a b : YearFS => pyLe b.name a.name)
      (fun a b c h1 h2 => pyLe_trans c.name b.name a.name h2 h1)
      (fun a b => by
        show (pyLe b.name a.name || pyLe a.name b.name) = true
        exact pyLe_total b.name a.name)
      (entries.filter (fun e => e.isDir && pyIsDigit e.name))
    exact List.Pairwise.imp (fun h => (pyLe_iff_lex _ _).mp h) hp
  · intro e _ hnd hmem
    rcases List.mem_map.mp hmem with ⟨e', he', hname⟩
    have := (hkept e' he').2
    rw [hname, hnd] at this
    exact Bool.noConfusion this

/-- Witness for `get_year_folders_spec`: a digit-named and a
letter-named directory; the letter-named one never appears. -/
theorem get_year_folders_spec_witness :
    (⟨['a', 'b', 'c'], true, none, []⟩ : YearFS)
        ∈ ([⟨['2', '0', '2', '5'], true, none, []⟩,
            ⟨['a', 'b', 'c'], true, none, []⟩] : List YearFS) ∧
    pyIsDigit ['a', 'b', 'c'] = false ∧
    ['a', 'b', 'c'] ∉ (get_year_folders
        [⟨['2', '0', '2', '5'], true, none, []⟩,
         ⟨['a', 'b', 'c'], true, none, []⟩]).map (fun x => x.name) :=
  ⟨List.mem_cons.mpr (Or.inr (List.mem_cons_self _ _)), by decide,
    (get_year_folders_spec _).2.2.2 _
      (List.mem_cons.mpr (Or.inr (List.mem_cons_self _ _))) (by decide)⟩

theorem parseMdLines_found (t : PyStr) :
    ∀ ls : List PyStr, parseMdLines ls true t = (t, ls)
  | [] => rfl
  | l :: ls => by
    simp [parseMdLines, parseMdLines_found t ls]

theorem parseMdLines_no_heading (t : PyStr) :
    ∀ (xs rest : List PyStr), (∀ l ∈ xs, isH1 l = false) →
      parseMdLines (xs ++ rest) false t
        = ((parseMdLines rest false t).1, xs ++ (parseMdLines rest false t).2)
  | [], rest, _ => by simp
  | x :: xs, rest, h => by
    have hx : isH1 x = false := h x (List.mem_cons_self _ _)
    have ih := parseMdLines_no_heading t xs rest
      (fun l hl => h l (List.mem_cons_of_mem _ hl))
    simp [parseMdLines, hx, ih]

/-- Counterexample to C4 as stated: on a document with no level-1
heading, `parse_md_file` does not return the title "untitled"; the fixed
fallback string in the source (line 97) is "未命名卡片". -/
theorem parse_md_fallback_cex :
    (parse_md_file [['h', 'i']]).1 ≠ "untitled".data := by decide

/-- C4 (amended): for every Markdown document with no line that, after
trimming, starts with a level-1 heading marker, `parse_md_file` returns
the fixed fallback title "未命名卡片" ("unnamed card") and the entire
document, every line in original order, as the body. -/
theorem parse_md_no_heading (lines : List PyStr)
    (h : ∀ l ∈ lines, isH1 l = false) :
    parse_md_file lines = (defaultCardTitle, lines) := by
  have := parseMdLines_no_heading defaultCardTitle lines [] h
  simpa [parse_md_file, parseMdLines] using this

/-- Witness for `parse_md_no_heading` on a two-line document. -/
theorem parse_md_no_heading_witness :
    (∀ l ∈ ([['h', 'i'], ['#', '#', ' ', 'x']] : List PyStr), isH1 l = false) ∧
    parse_md_file [['h', 'i'], ['#', '#', ' ', 'x']]
      = (defaultCardTitle, [['h', 'i'], ['#', '#', ' ', 'x']]) :=
  ⟨by decide, parse_md_no_heading _ (by decide)⟩

/-- C5: for every Markdown document whose first level-1 heading line `h`
is followed by lines among which at least one also starts with a level-1
marker, only `h` becomes the title and is excluded from the body; every
later line, the further heading lines included, stays in the body in
original order. -/
theorem parse_md_two_headings (xs ys : List PyStr) (h : PyStr)
    (hxs : ∀ l ∈ xs, isH1 l = false) (hh : isH1 h = true)
    (_hys : ∃ y ∈ ys, isH1 y = true) :
    parse_md_file (xs ++ h :: ys) = (mdTitle h, xs ++ ys) := by
  rw [parse_md_file, parseMdLines_no_heading defaultCardTitle xs (h :: ys) hxs]
  simp [parseMdLines, hh, parseMdLines_found]

/-- Witness for `parse_md_two_headings`: the document
`hi / # One / # Two`; the second heading line stays in the body. -/
theorem parse_md_two_headings_witness :
    (∀ l ∈ ([['h', 'i']] : List PyStr), isH1 l = false) ∧
    isH1 "# One".data = true ∧
    (∃ y ∈ ([" # Two".data] : List PyStr), isH1 y = true) ∧
    parse_md_file [['h', 'i'], "# One".data, " # Two".data]
      = (mdTitle "# One".data, [['h', 'i'], " # Two".data]) :=
  ⟨by decide, by decide, by decide,
    parse_md_two_headings [['h', 'i']] [" # Two".data] "# One".data
      (by decide) (by decide) (by decide)⟩

/-- Spec formula of C10 for the extracted title, as the claim words it:
the stripped line with all leading `#` and space characters removed. -/
def claimTitle (l : PyStr) : PyStr :=
  (pyStrip l).dropWhile (fun c => c = '#' || c = ' ')

/-- Counterexample to C10 as stated: on the line `"# \tT"` the parsers
extract the title `"T"` (the code strips again after removing the
leading `#`/space characters, source lines 53 and 103), while the
claim's formula yields `"\tT"`. -/
theorem claim_title_cex :
    (parse_md_file [['#', ' ', '\t', 'T']]).1 ≠ claimTitle ['#', ' ', '\t', 'T'] := by
  decide

/-- C10 (amended): in both parsers a line sets the title exactly when its
stripped form begins with the two characters `#` and space (so `#Title`
and `## ...` never do, an indented `  # Title` does), and the extracted
title is the stripped line with all leading `#` and space characters
removed and then stripped of surrounding whitespace again. -/
theorem isH1_iff (l : PyStr) :
    isH1 l = true ↔ ∃ rest, pyStrip l = '#' :: ' ' :: rest := by
  unfold isH1
  constructor
  · intro h
    split at h
    · next heq => exact ⟨_, heq⟩
    · exact Bool.noConfusion h
  · rintro ⟨r, hr⟩
    rw [hr]
    rfl

theorem heading_recognition (l y : PyStr) :
    ((parse_md_file [l]).1
        = if isH1 l then pyStrip (claimTitle l) else defaultCardTitle) ∧
    ((parse_year_index y [l]).1
        = if isH1 l then pyStrip (claimTitle l) else y) ∧
    (isH1 l = true ↔ ∃ rest, pyStrip l = '#' :: ' ' :: rest) := by
  refine ⟨?_, ?_, isH1_iff l⟩
  · by_cases h : isH1 l
    · simp [parse_md_file, parseMdLines, h, parseMdLines_found, mdTitle, claimTitle]
    · simp [parse_md_file, parseMdLines, h]
  · by_cases h : isH1 l
    · simp [parse_year_index, parseYearLines, h, mdTitle, claimTitle]
    · rcases ht : lineTarget l with _ | name <;>
        simp [parse_year_index, parseYearLines, h, ht]

theorem lineTarget_of_isH1 {l : PyStr} (h : isH1 l = true) :
    lineTarget l = none := by
  rcases (isH1_iff l).mp h with ⟨r, hr⟩
  unfold lineTarget matchOrderLine
  rw [hr]
  rfl

theorem parseYearLines_order :
    ∀ (lines : List PyStr) (found : Bool) (tab : PyStr),
      (parseYearLines lines found tab).2 = lines.filterMap lineTarget
  | [], _, _ => rfl
  | l :: ls, found, tab => by
    by_cases h : (!found && isH1 l) = true
    · have hH1 : isH1 l = true := by
        rw [Bool.and_eq_true] at h
        exact h.2
      simp [parseYearLines, h, List.filterMap_cons, lineTarget_of_isH1 hH1,
        parseYearLines_order ls true (mdTitle l)]
    · rcases ht : lineTarget l with _ | name <;>
        simp [parseYearLines, h, ht, List.filterMap_cons,
          parseYearLines_order ls found tab]

/-- Counterexample to C6 as stated: the line `- [x]()` matches the
list-item pattern with empty parenthesized text (group 2 is the empty
string), yet nothing — in particular not the empty string — is appended
to the declared order, because source line 61 skips empty targets. -/
theorem order_entry_empty_cex :
    matchOrderLine (pyStrip "- [x]()".data) = some [] ∧
    ([] : PyStr) ∉ (parse_year_index "2025".data ["- [x]()".data]).2 :=
  ⟨by decide, by decide⟩

/-- C6 (amended): every line of the year index document matching the
list-item pattern, wherever it stands relative to the heading,
contributes exactly its trimmed parenthesized text to the declared
order, and only when that trimmed text is nonempty (an empty trimmed
target is skipped); the bracketed label is never consulted
(`lineTarget` factors through `matchOrderLine`, which discards
group 1). -/
theorem year_order_entries (y : PyStr) (lines : List PyStr) :
    (parseYearLines lines false y).2 = lines.filterMap lineTarget ∧
    (∀ l ∈ lines, ∀ g2 : PyStr, matchOrderLine (pyStrip l) = some g2 →
      ¬ (pyStrip g2).isEmpty = true →
      pyStrip g2 ∈ (parse_year_index y lines).2) := by
  refine ⟨parseYearLines_order lines false y, ?_⟩
  intro l hl g2 hm hne
  have hlt : lineTarget l = some (pyStrip g2) := by
    unfold lineTarget
    rw [hm]
    show (if (pyStrip g2).isEmpty = true then none else some (pyStrip g2))
        = some (pyStrip g2)
    exact if_neg hne
  have hmem : pyStrip g2 ∈ lines.filterMap lineTarget :=
    List.mem_filterMap.mpr ⟨l, hl, hlt⟩
  show pyStrip g2 ∈ dedupFirst (parseYearLines lines false y).2
  rw [parseYearLines_order lines false y]
  exact (mem_dedupFirst _ _).mpr hmem

/-- Witness for `year_order_entries`: a list item after the heading
contributes its target `alpha`. -/
theorem year_order_entries_witness :
    ("- [A](alpha)".data ∈
        ["pre".data, "# T".data, "- [A](alpha)".data]) ∧
    matchOrderLine (pyStrip "- [A](alpha)".data) = some "alpha".data ∧
    ¬ (pyStrip "alpha".data).isEmpty = true ∧
    pyStrip "alpha".data ∈ (parse_year_index "2025".data
      ["pre".data, "# T".data, "- [A](alpha)".data]).2 :=
  ⟨by decide, by decide, by decide,
    (year_order_entries "2025".data
        ["pre".data, "# T".data, "- [A](alpha)".data]).2
      "- [A](alpha)".data (by decide) "alpha".data (by decide) (by decide)⟩

/-- C7: the year-index parser never raises past its boundary: an absent
index document yields the caller-supplied default display name (the
year folder name) and an empty declared order, and a document whose
read raises for any other reason is caught and yields those same
defaults. -/
theorem parse_year_index_boundary (y : PyStr) :
    parse_year_index_outer y none = (y, []) ∧
    ∀ e : PyStr, parse_year_index_outer y (some (Except.error e)) = (y, []) :=
  ⟨rfl, fun _ => rfl⟩

theorem buildCards_eq (year : PyStr)
    (fs : PyStr → Option (Except PyStr (List PyStr))) :
    ∀ order : List PyStr,
      buildCards year fs order
        = (order.filterMap (okCard fs), order.filterMap (warnOf year fs))
  | [] => rfl
  | sf :: rest => by
    rcases hfs : fs sf with _ | e
    · simp [buildCards, hfs, List.filterMap_cons, okCard, warnOf,
        buildCards_eq year fs rest]
    · rcases e with e | lines <;>
        simp [buildCards, hfs, List.filterMap_cons, okCard, warnOf,
          buildCards_eq year fs rest]

/-- C8: the per-section loop produces exactly one card per subfolder
whose index document parses, and one warning naming the year and
subfolder for each absent or failing index document; an absent index
document contributes a `Warn.missingIndex` naming year and subfolder
and no card (so the card list can be shorter than the order), and a
skipped subfolder leaves the cards of all sibling subfolders
untouched. -/
theorem aggregator_skip_spec (year : PyStr)
    (fs : PyStr → Option (Except PyStr (List PyStr))) (order : List PyStr) :
    buildCards year fs order
      = (order.filterMap (okCard fs), order.filterMap (warnOf year fs)) ∧
    (∀ sf ∈ order, fs sf = none →
      Warn.missingIndex year sf ∈ (buildCards year fs order).2) ∧
    (buildCards year fs order).1.length ≤ order.length ∧
    (∀ l1 l2 : List PyStr, ∀ sf : PyStr, okCard fs sf = none →
      (buildCards year fs (l1 ++ sf :: l2)).1
        = (buildCards year fs (l1 ++ l2)).1) := by
  refine ⟨buildCards_eq year fs order, ?_, ?_, ?_⟩
  · intro sf hsf hnone
    rw [buildCards_eq]
    exact List.mem_filterMap.mpr ⟨sf, hsf, by simp [warnOf, hnone]⟩
  · rw [buildCards_eq]
    exact List.length_filterMap_le _ _
  · intro l1 l2 sf hnone
    rw [buildCards_eq, buildCards_eq]
    simp [List.filterMap_append, List.filterMap_cons, hnone]

/-- Witness for `aggregator_skip_spec`: subfolder `a` has an index
document, subfolder `b` has none; `b` is warned about, and skipping `b`
leaves `a`'s card untouched. -/
theorem aggregator_skip_spec_witness :
    ((['b'] : PyStr) ∈ ([['a'], ['b']] : List PyStr)) ∧
    (fun sf : PyStr =>
      if sf = ['a'] then some (Except.ok [['h', 'i']])
      else (none : Option (Except PyStr (List PyStr)))) ['b'] = none ∧
    Warn.missingIndex "2025".data ['b'] ∈
      (buildCards "2025".data
        (fun sf : PyStr =>
          if sf = ['a'] then some (Except.ok [['h', 'i']])
          else (none : Option (Except PyStr (List PyStr))))
        [['a'], ['b']]).2 ∧
    okCard (fun sf : PyStr =>
        if sf = ['a'] then some (Except.ok [['h', 'i']])
        else (none : Option (Except PyStr (List PyStr)))) ['b'] = none ∧
    (buildCards "2025".data
        (fun sf : PyStr =>
          if sf = ['a'] then some (Except.ok [['h', 'i']])
          else (none : Option (Except PyStr (List PyStr))))
        ([['a']] ++ ['b'] :: [])).1
      = (buildCards "2025".data
          (fun sf : PyStr =>
            if sf = ['a'] then some (Except.ok [['h', 'i']])
            else (none : Option (Except PyStr (List PyStr))))
          ([['a']] ++ [])).1 :=
  ⟨by decide, rfl,
    (aggregator_skip_spec "2025".data _ [['a'], ['b']]).2.1 ['b'] (by decide) rfl,
    rfl,
    (aggregator_skip_spec "2025".data _ [['a'], ['b']]).2.2.2 [['a']] [] ['b'] rfl⟩

theorem get_year_folders_eq_nil_iff (entries : List YearFS) :
    get_year_folders entries = []
      ↔ ∀ e ∈ entries, e.isDir = false ∨ pyIsDigit e.name = false := by
  have hperm := sortBy_perm (fun a b : YearFS => pyLe b.name a.name)
    (entries.filter (fun e => e.isDir && pyIsDigit e.name))
  constructor
  · intro h e he
    have hfil : entries.filter (fun e => e.isDir && pyIsDigit e.name) = [] := by
      have hl := hperm.length_eq
      rw [get_year_folders] at h
      rw [h] at hl
      exact List.length_eq_zero.mp hl.symm
    have hni := List.filter_eq_nil_iff.mp hfil e he
    by_cases h1 : e.isDir <;> by_cases h2 : pyIsDigit e.name <;>
      simp [h1, h2] at hni ⊢
  · intro h
    have hfil : entries.filter (fun e => e.isDir && pyIsDigit e.name) = [] := by
      refine List.filter_eq_nil_iff.mpr fun e he => ?_
      rcases h e he with h1 | h1 <;> simp [h1]
    rw [get_year_folders, hfil]
    rfl

/-- C9: the run is fatal only for an invalid root: a missing root
aborts with no output write, a root that is not a directory aborts with
an uncaught exception and no output write, a root without digit-named
year directories aborts with no output write, and every other run
performs exactly one output write, of the fully formed rendering, at
the very end. -/
theorem main_run_spec (render : List YearData → PyStr) :
    mainRun RootState.missing render = Except.ok [] ∧
    mainRun RootState.notDir render = Except.error () ∧
    (∀ entries : List YearFS,
      ((get_year_folders entries).isEmpty = true →
        mainRun (RootState.dir entries) render = Except.ok []) ∧
      ((get_year_folders entries).isEmpty = false →
        mainRun (RootState.dir entries) render
          = Except.ok [render ((get_year_folders entries).map
              (fun yy => (processYear yy).1))]) ∧
      ((get_year_folders entries).isEmpty = true ↔
        ∀ e ∈ entries, e.isDir = false ∨ pyIsDigit e.name = false)) := by
  refine ⟨rfl, rfl, fun entries => ⟨?_, ?_, ?_⟩⟩
  · intro h
    simp [mainRun, h]
  · intro h
    simp [mainRun, h]
  · rw [List.isEmpty_iff]
    exact get_year_folders_eq_nil_iff entries

/-- Witness for `main_run_spec`: an empty root directory writes nothing;
a root with the single year directory `2025` writes exactly one file. -/
theorem main_run_spec_witness :
    (get_year_folders ([] : List YearFS)).isEmpty = true ∧
    mainRun (RootState.dir []) (fun _ => ([] : PyStr)) = Except.ok [] ∧
    (get_year_folders
        ([⟨"2025".data, true, none, []⟩] : List YearFS)).isEmpty = false ∧
    mainRun (RootState.dir [⟨"2025".data, true, none, []⟩])
        (fun _ => ([] : PyStr))
      = Except.ok [(fun _ : List YearData => ([] : PyStr))
          ((get_year_folders [⟨"2025".data, true, none, []⟩]).map
            (fun yy => (processYear yy).1))] := by
  have h := main_run_spec (fun _ => ([] : PyStr))
  exact ⟨rfl, (h.2.2 []).1 rfl, rfl,
    (h.2.2 [⟨"2025".data, true, none, []⟩]).2.1 rfl⟩
